import Mathlib

/-!
Verification of the podcast generator frontend against its specification.

The repository is a Next.js single-page UI (`src/components/podcast-app.tsx`)
over an external HTTP backend, together with a reverse-proxy API route
(`src/pages/api/podcasts/[[...slug]].ts`) and rewrite rules
(`src/next.config.mjs`).  This file shallowly embeds the pure content of that
code:

* JavaScript numbers are modelled as exact rationals `ℚ`; a JavaScript
  division whose result can be non-finite (`NaN`, `±Infinity`) is modelled by
  `jsDiv : ℚ → ℚ → Option ℚ`, with `none` standing for a non-finite result.
* The imperative loops of `generateWaveform` are translated as folds that
  push onto a list, exactly mirroring `filteredData.push(...)`.
* The canvas drawing of `drawWaveform` is reified as the list of
  `fillRect` calls together with the fill colour in force for each call.
* The React component handlers (`fetchPodcasts`, `handleSubmit`,
  `handleDelete`) become state transformers on the component state, with the
  outcome of each network request supplied as an explicit argument.
-/

namespace PodcastApp

/-! ## generateWaveform (src/components/podcast-app.tsx, lines 49-72) -/

/-- `const samples = 100` in `generateWaveform`: the number of waveform bars. -/
def samples : ℕ := 100

/-- JavaScript division on finite numbers, over exact rationals.  `none`
models a non-finite result: `0 / 0` is `NaN` and `x / 0` (`x ≠ 0`) is
`±Infinity`; a division by a nonzero divisor is finite (and exact here). -/
def jsDiv (a b : ℚ) : Option ℚ :=
  if b = 0 then none else some (a / b)

/-- The inner loop of `generateWaveform`:
`let sum = 0; for (let j = 0; j < blockSize; j++) sum += Math.abs(channelData[blockStart + j])`.
The buffer is read through `getD` with default `0`; claim C2 shows every
index actually read is in bounds. -/
def blockSum (channelData : List ℚ) (blockStart blockSize : ℕ) : ℚ :=
  (List.range blockSize).foldl (fun sum j => sum + |channelData.getD (blockStart + j) 0|) 0

/-- `generateWaveform` of `AudioPlayer`, from the decoded `channelData` on:
`blockSize = Math.floor(channelData.length / samples)`, then for each
`i < samples` it pushes `sum / blockSize` onto `filteredData`, where `sum`
adds `Math.abs(channelData[blockStart + j])` for `j < blockSize` with
`blockStart = blockSize * i`.  The division is JavaScript division `jsDiv`. -/
def generateWaveform (channelData : List ℚ) : List (Option ℚ) :=
  let blockSize := channelData.length / samples
  (List.range samples).foldl
    (fun filteredData i =>
      filteredData ++ [jsDiv (blockSum channelData (blockSize * i) blockSize) (blockSize : ℚ)])
    []

/-- Folding a push-onto-the-end across a list is a `map`. -/
lemma foldl_push_eq_map {α β : Type} (f : α → β) (l : List α) (init : List β) :
    l.foldl (fun acc i => acc ++ [f i]) init = init ++ l.map f := by
  induction l generalizing init with
  | nil => simp
  | cons x xs ih => simp [ih]

/-- The imperative loop of `generateWaveform` computes a `map` over the bar
indices. -/
lemma generateWaveform_eq_map (cd : List ℚ) :
    generateWaveform cd =
      (List.range samples).map (fun i =>
        jsDiv (blockSum cd (cd.length / samples * i) (cd.length / samples))
          ((cd.length / samples : ℕ) : ℚ)) := by
  simp [generateWaveform, foldl_push_eq_map]

/-- `generateWaveform` always produces `samples = 100` entries. -/
lemma generateWaveform_length (cd : List ℚ) : (generateWaveform cd).length = 100 := by
  rw [generateWaveform_eq_map]
  simp [samples]

/-- A left fold of additions over `List.range` is a `Finset.range` sum. -/
lemma foldl_add_eq_sum (g : ℕ → ℚ) (n : ℕ) :
    (List.range n).foldl (fun s j => s + g j) 0 = ∑ j in Finset.range n, g j := by
  induction n with
  | zero => simp
  | succ m ih =>
    rw [List.range_succ, List.foldl_append, ih, Finset.sum_range_succ]
    rfl

/-- The inner summation loop computes the finite sum of absolute samples. -/
lemma blockSum_eq_sum (cd : List ℚ) (start n : ℕ) :
    blockSum cd start n = ∑ j in Finset.range n, |cd.getD (start + j) 0| :=
  foldl_add_eq_sum (fun j => |cd.getD (start + j) 0|) n

/-- Claim C1: for every decoded sample buffer `channelData` of length `n`,
`generateWaveform` produces exactly 100 entries, and with
`blockSize = ⌊n / 100⌋` entry `i` is the JavaScript division of
`∑ j < blockSize, |channelData[i * blockSize + j]|` by `blockSize` — the
stated single-pass numeric reduction over the decoded buffer. -/
theorem generateWaveform_is_block_average (cd : List ℚ) :
    (generateWaveform cd).length = 100 ∧
    ∀ i : ℕ, i < 100 →
      (generateWaveform cd).getD i none =
        jsDiv (∑ j in Finset.range (cd.length / 100), |cd.getD (i * (cd.length / 100) + j) 0|)
          ((cd.length / 100 : ℕ) : ℚ) := by
  refine ⟨generateWaveform_length cd, fun i hi => ?_⟩
  rw [generateWaveform_eq_map]
  rw [List.getD_eq_getElem?_getD, List.getElem?_map, List.getElem?_range (by simpa [samples] using hi)]
  simp [samples, blockSum_eq_sum, Nat.mul_comm]

/-- Witness for C1: a concrete 150-sample buffer (so `blockSize = 1`) at bar
index 3. -/
theorem generateWaveform_is_block_average_witness :
    (3 : ℕ) < 100 ∧
    (generateWaveform (List.replicate 150 (1 : ℚ))).getD 3 none =
      jsDiv (∑ j in Finset.range ((List.replicate 150 (1 : ℚ)).length / 100),
          |(List.replicate 150 (1 : ℚ)).getD (3 * ((List.replicate 150 (1 : ℚ)).length / 100) + j) 0|)
        (((List.replicate 150 (1 : ℚ)).length / 100 : ℕ) : ℚ) :=
  ⟨by decide, (generateWaveform_is_block_average (List.replicate 150 1)).2 3 (by decide)⟩

/-! ## Claim C2: the reduction is bounded and single-pass -/

/-- The sequence of indices `blockStart + j` at which the two nested loops of
`generateWaveform` read `channelData`, in execution order, for a buffer of
length `n`: the outer loop ranges over `i < samples`, the inner loop over
`j < blockSize`, and the read is at `blockSize * i + j`. -/
def readIndices (n : ℕ) : List ℕ :=
  (List.range samples).flatMap
    (fun i => (List.range (n / samples)).map (fun j => n / samples * i + j))

/-- Laying out `m` consecutive blocks of size `b` enumerates `[0, m*b)` in
order. -/
lemma range_flatMap_blocks (b m : ℕ) :
    (List.range m).flatMap (fun i => (List.range b).map (fun j => b * i + j)) =
      List.range (m * b) := by
  induction m with
  | zero => simp
  | succ k ih =>
    rw [List.range_succ, List.flatMap_append, ih, Nat.succ_mul, List.range_add]
    simp [Nat.mul_comm]

/-- The reads of `generateWaveform` on a length-`n` buffer are exactly the
first `100 * ⌊n / 100⌋` indices, in order. -/
lemma readIndices_eq_range (n : ℕ) :
    readIndices n = List.range (100 * (n / 100)) := by
  rw [readIndices, samples, range_flatMap_blocks]

/-- Claim C2: under the precondition `100 ≤ n`, every index the two loops of
`generateWaveform` read lies in `[0, n)` (since `100 * ⌊n / 100⌋ ≤ n`), each
index is read at most once across all iterations (`Nodup`), and the whole
pass is the finite list of exactly `100 * ⌊n / 100⌋` reads — in particular
both loops terminate. -/
theorem generateWaveform_bounded_single_pass (n : ℕ) (h : 100 ≤ n) :
    (∀ k ∈ readIndices n, k < n) ∧ (readIndices n).Nodup ∧
    (readIndices n).length = 100 * (n / 100) := by
  refine ⟨fun k hk => ?_, ?_, ?_⟩
  · rw [readIndices_eq_range, List.mem_range] at hk
    calc k < 100 * (n / 100) := hk
    _ = n / 100 * 100 := Nat.mul_comm _ _
    _ ≤ n := Nat.div_mul_le_self n 100
  · rw [readIndices_eq_range]
    exact List.nodup_range _
  · rw [readIndices_eq_range]
    exact List.length_range _

/-- Witness for C2 at the concrete buffer length `n = 250`. -/
theorem generateWaveform_bounded_single_pass_witness :
    100 ≤ 250 ∧
    ((∀ k ∈ readIndices 250, k < 250) ∧ (readIndices 250).Nodup ∧
      (readIndices 250).length = 100 * (250 / 100)) :=
  ⟨by decide, generateWaveform_bounded_single_pass 250 (by decide)⟩

/-! ## Claim C8: buffers shorter than 100 samples produce NaN entries -/

/-- Claim C8: for a decoded buffer with fewer than 100 samples,
`blockSize = ⌊n / 100⌋ = 0`, the inner loop never runs (the block sum is the
empty sum `0`), and each of the 100 pushed entries is the unguarded division
`0 / 0`, i.e. `NaN` (`jsDiv 0 0 = none`): `generateWaveform` has no guard
against this case. -/
theorem generateWaveform_short_buffer_nan (cd : List ℚ) (h : cd.length < 100) :
    cd.length / 100 = 0 ∧
    blockSum cd 0 (cd.length / 100) = 0 ∧
    (generateWaveform cd).length = 100 ∧
    (∀ x ∈ generateWaveform cd, x = jsDiv 0 0) ∧
    jsDiv 0 0 = none := by
  have hz : cd.length / 100 = 0 := Nat.div_eq_of_lt h
  refine ⟨hz, ?_, generateWaveform_length cd, fun x hx => ?_, by simp [jsDiv]⟩
  · rw [hz]
    simp [blockSum]
  · rw [generateWaveform_eq_map] at hx
    simp only [List.mem_map, List.mem_range] at hx
    obtain ⟨i, -, rfl⟩ := hx
    rw [samples, hz]
    simp [blockSum]

/-- Witness for C8: a concrete two-sample buffer; its first waveform entry is
`NaN`. -/
theorem generateWaveform_short_buffer_nan_witness :
    ([(1 : ℚ) / 2, -1 / 3] : List ℚ).length < 100 ∧
    ∀ x ∈ generateWaveform [(1 : ℚ) / 2, -1 / 3], x = jsDiv 0 0 :=
  ⟨by decide, (generateWaveform_short_buffer_nan [(1 : ℚ) / 2, -1 / 3] (by decide)).2.2.2.1⟩

/-! ## drawWaveform (src/components/podcast-app.tsx, lines 74-111) -/

/-- One `ctx.fillRect(x, y, w, h)` call of `drawWaveform`, together with the
`ctx.fillStyle` colour in force when it is issued. -/
structure DrawCmd where
  x : ℚ
  y : ℚ
  w : ℚ
  h : ℚ
  color : String
deriving DecidableEq

instance : Inhabited DrawCmd := ⟨⟨0, 0, 0, 0, ""⟩⟩

/-- `Math.max(...l)` for a non-empty list `l` (`drawWaveform` only evaluates
it under its `waveformData.length > 0` guard; the empty case is unused). -/
def mathMax : List ℚ → ℚ
  | [] => 0
  | x :: xs => xs.foldl max x

/-- `drawWaveform` of `AudioPlayer`, reified as the list of rectangles it
fills (in the order of the `forEach`), with `height = 200` CSS pixels,
`barWidth = width / waveformData.length`, `maxValue = Math.max(...waveformData)`,
`centerY = height / 2`, and `progress = currentTime / duration`.  When the
`waveformData.length > 0` guard fails nothing is drawn. -/
def drawWaveform (waveformData : List ℚ) (currentTime duration width : ℚ) : List DrawCmd :=
  if 0 < waveformData.length then
    let height : ℚ := 200
    let barWidth : ℚ := width / (waveformData.length : ℚ)
    let maxValue : ℚ := mathMax waveformData
    let centerY : ℚ := height / 2
    let progress : ℚ := currentTime / duration
    waveformData.enum.map (fun p =>
      let scaledValue : ℚ := p.2 / maxValue * (height / 2)
      { x := (p.1 : ℚ) * barWidth
        y := centerY - scaledValue
        w := barWidth
        h := scaledValue * 2
        color :=
          if (p.1 : ℚ) / (waveformData.length : ℚ) ≤ progress then "#e2e8f0" else "#718096" })
  else []

/-- Claim C3: for every non-empty waveform list and every playback state with
`duration > 0`, `drawWaveform` draws one bar per waveform entry; bar `i` has
the played colour `"#e2e8f0"` iff `i / waveformData.length ≤ currentTime / duration`
and the colour `"#718096"` otherwise, and bar `i` is a rectangle of height
`2 * (value_i / max(waveformData)) * (height / 2)` whose vertical centre is
the horizontal centreline `height / 2`. -/
theorem drawWaveform_progress_coloring (wf : List ℚ) (ct dur width : ℚ)
    (hne : wf ≠ []) (hdur : 0 < dur) :
    (drawWaveform wf ct dur width).length = wf.length ∧
    ∀ i : ℕ, i < wf.length →
      (((drawWaveform wf ct dur width).getD i default).color = "#e2e8f0" ↔
          (i : ℚ) / (wf.length : ℚ) ≤ ct / dur) ∧
      (¬ ((i : ℚ) / (wf.length : ℚ) ≤ ct / dur) →
          ((drawWaveform wf ct dur width).getD i default).color = "#718096") ∧
      ((drawWaveform wf ct dur width).getD i default).h =
          2 * (wf.getD i 0 / mathMax wf) * (200 / 2) ∧
      ((drawWaveform wf ct dur width).getD i default).y +
          ((drawWaveform wf ct dur width).getD i default).h / 2 = 200 / 2 := by
  have hpos : 0 < wf.length := List.length_pos.mpr hne
  constructor
  · simp [drawWaveform, hpos]
  · intro i hi
    have hb : (drawWaveform wf ct dur width).getD i default =
        ⟨(i : ℚ) * (width / (wf.length : ℚ)),
          200 / 2 - wf.getD i 0 / mathMax wf * (200 / 2),
          width / (wf.length : ℚ),
          wf.getD i 0 / mathMax wf * (200 / 2) * 2,
          if (i : ℚ) / (wf.length : ℚ) ≤ ct / dur then "#e2e8f0" else "#718096"⟩ := by
      simp [drawWaveform, hpos, List.getD_eq_getElem?_getD, List.getElem?_map,
        List.getElem?_enum, List.getElem?_eq_getElem hi]
    rw [hb]
    refine ⟨?_, fun hc => by simp [hc], by ring, by ring⟩
    by_cases hc : (i : ℚ) / (wf.length : ℚ) ≤ ct / dur
    · simp [hc]
    · exact iff_of_false (by simp [hc]) hc

/-- Witness for C3: two bars, playback halfway through; bar 0 is played. -/
theorem drawWaveform_progress_coloring_witness :
    ([(1 : ℚ), 2] ≠ [] ∧ (0 : ℚ) < 2 ∧ (0 : ℕ) < [(1 : ℚ), 2].length) ∧
    ((drawWaveform [(1 : ℚ), 2] 1 2 100).getD 0 default).color = "#e2e8f0" :=
  ⟨⟨by decide, by norm_num, by decide⟩,
    ((drawWaveform_progress_coloring [(1 : ℚ), 2] 1 2 100 (by decide) (by norm_num)).2 0
        (by decide)).1.mpr (by norm_num)⟩

/-! ## Claim C9: the waveformData state invariant -/

/-- The reachable values of the `waveformData` state of `AudioPlayer`: it is
initialised to `[]` by `useState<number[]>([])`, and the only update the
component ever performs is `setWaveformData(filteredData)` with
`filteredData` produced by `generateWaveform` from some decoded buffer. -/
inductive WaveformReachable : List (Option ℚ) → Prop
  | init : WaveformReachable []
  | update (cd : List ℚ) (w : List (Option ℚ)) :
      WaveformReachable w → WaveformReachable (generateWaveform cd)

/-- Claim C9: in every reachable state of `AudioPlayer`, `waveformData` has
length 0 (the initial state) or exactly 100 (the only value
`generateWaveform` ever stores); the invariant is preserved by every update
the component performs. -/
theorem waveformData_length_invariant (w : List (Option ℚ)) (h : WaveformReachable w) :
    w.length = 0 ∨ w.length = 100 := by
  induction h with
  | init => exact Or.inl rfl
  | update cd w _ _ => exact Or.inr (generateWaveform_length cd)

/-- Witness for C9: the state reached by one `setWaveformData` after decoding
an empty buffer. -/
theorem waveformData_length_invariant_witness :
    (generateWaveform []).length = 0 ∨ (generateWaveform []).length = 100 :=
  waveformData_length_invariant _ (.update [] [] .init)

/-! ## PodcastApp component state and handlers
(src/components/podcast-app.tsx, lines 166-230) -/

/-- A podcast record as the backend returns it (`interface Podcast`). -/
structure Podcast where
  id : ℤ
  topic : String
  audio_url : String
deriving DecidableEq

/-- The state of the `PodcastApp` component: the four `useState` hooks
`topic`, `isLoading`, `error`, `recentPodcasts`. -/
structure AppState where
  topic : String
  isLoading : Bool
  error : String
  recentPodcasts : List Podcast
deriving DecidableEq

/-- The initial component state:
`useState('')`, `useState(false)`, `useState('')`, `useState<Podcast[]>([])`. -/
def initialAppState : AppState :=
  { topic := "", isLoading := false, error := "", recentPodcasts := [] }

/-- Outcome of the GET `/api/podcasts/` request made by `fetchPodcasts`:
`ok data` is a successful response whose JSON body parsed to `data`;
`notOk` is a response with `!response.ok`; `threw` is a rejected `fetch`
or a failing `response.json()`. -/
inductive FetchOutcome where
  | ok (data : List Podcast)
  | notOk
  | threw
deriving DecidableEq

/-- `fetchPodcasts` as a state transformer.  On success it runs
`setRecentPodcasts(data.slice(0, 5))`; on `!response.ok` it throws
`Error('Failed to fetch podcasts')`, and the `catch` block turns any
failure into `setError('Failed to load podcasts')`. -/
def fetchPodcasts (s : AppState) (resp : FetchOutcome) : AppState :=
  match resp with
  | .ok data => { s with recentPodcasts := data.take 5 }
  | .notOk => { s with error := "Failed to load podcasts" }
  | .threw => { s with error := "Failed to load podcasts" }

/-- Six podcasts, one more than the `slice(0, 5)` cut-off of
`fetchPodcasts`. -/
def sixPodcasts : List Podcast :=
  [⟨1, "a", "u1"⟩, ⟨2, "b", "u2"⟩, ⟨3, "c", "u3"⟩,
    ⟨4, "d", "u4"⟩, ⟨5, "e", "u5"⟩, ⟨6, "f", "u6"⟩]

/-- Counterexample to claim C4 as stated: for a successful list response of
six podcasts, `fetchPodcasts` stores `data.slice(0, 5)`, which differs from
the fetched collection. -/
theorem fetchPodcasts_counterexample :
    (fetchPodcasts initialAppState (.ok sixPodcasts)).recentPodcasts ≠ sixPodcasts := by
  decide

/-- Claim C4 (amended): after `fetchPodcasts` completes on a successful list
response, `recentPodcasts` equals `data.slice(0, 5)` — the first
`min 5 data.length` fetched podcasts — and the other state fields are
untouched. -/
theorem fetchPodcasts_sets_first_five (s : AppState) (data : List Podcast) :
    (fetchPodcasts s (.ok data)).recentPodcasts = data.take 5 ∧
    (fetchPodcasts s (.ok data)).recentPodcasts.length = min 5 data.length ∧
    (fetchPodcasts s (.ok data)).topic = s.topic ∧
    (fetchPodcasts s (.ok data)).isLoading = s.isLoading ∧
    (fetchPodcasts s (.ok data)).error = s.error := by
  refine ⟨rfl, ?_, rfl, rfl, rfl⟩
  simp [fetchPodcasts]

/-! ## Claims C5 and C6: the CRUD requests and their error handling -/

/-- Failure of the POST issued by `handleSubmit`: `notOk` is a response
failing `response.ok` (the code throws
``Error(`Network response was not ok: ${status} ${statusText}`)``);
`threwError msg` is an `Error` instance thrown by `fetch` (for instance a
network failure), whose `.message` is `msg`; `threwNonError` is a thrown
non-`Error` value. -/
inductive CreateFailure where
  | notOk (status : ℕ) (statusText : String)
  | threwError (msg : String)
  | threwNonError
deriving DecidableEq

/-- The string `handleSubmit`'s `catch` block passes to `setError`:
`error instanceof Error ? error.message : 'An unknown error occurred'`. -/
def createErrorMessage : CreateFailure → String
  | .notOk status statusText =>
      "Network response was not ok: " ++ toString status ++ " " ++ statusText
  | .threwError msg => msg
  | .threwNonError => "An unknown error occurred"

/-- `handleSubmit` as a state transformer.  It runs `setIsLoading(true)` and
`setError('')`; on a successful POST (`createResult = none`) it awaits
`fetchPodcasts()` (whose list response is `listResp`) and clears the topic;
on failure it sets the error message; the `finally` block always runs
`setIsLoading(false)`. -/
def handleSubmit (s : AppState) (createResult : Option CreateFailure)
    (listResp : FetchOutcome) : AppState :=
  let s1 := { s with isLoading := true, error := "" }
  match createResult with
  | none =>
      let s2 := fetchPodcasts s1 listResp
      { s2 with topic := "", isLoading := false }
  | some f =>
      { s1 with error := createErrorMessage f, isLoading := false }

/-- `handleDelete` as a state transformer: on a failed DELETE (not-ok
response or thrown error) the `catch` block sets
`setError('Failed to delete podcast')`; on success it refreshes the list via
`fetchPodcasts()`. -/
def handleDelete (s : AppState) (deleteFails : Bool) (listResp : FetchOutcome) : AppState :=
  if deleteFails then { s with error := "Failed to delete podcast" }
  else fetchPodcasts s listResp

/-- The thrown `Error` messages the environment can deliver to
`handleSubmit`'s catch block are non-empty; this holds for every failure the
code itself constructs and for browser `fetch` rejections. -/
def failureMessageNonempty : CreateFailure → Prop
  | .threwError msg => msg ≠ ""
  | _ => True

/-- Appending cannot erase a non-empty string. -/
lemma append_ne_empty_left (a b : String) (ha : a ≠ "") : a ++ b ≠ "" := by
  intro h
  apply ha
  have hd : a.data ++ b.data = [] := by
    have := congrArg String.data h
    simpa [String.data_append] using this
  cases a with
  | mk d =>
    cases d with
    | nil => rfl
    | cons c cs => simp at hd

/-- Claim C6: on every failed operation the only recovery is surfacing an
error string.  If the create request fails, `handleSubmit` sets `error` to a
non-empty message, leaves `topic` unchanged (it is cleared only on success),
leaves `recentPodcasts` unchanged, and ends with `isLoading = false`;
`fetchPodcasts` and `handleDelete` likewise set fixed non-empty error strings
on failure.  (The hypothesis records the environmental fact that a thrown
`Error`'s message is non-empty, true of every error the code constructs and
of browser `fetch` rejections.) -/
theorem failures_surface_error_strings (s : AppState) (f : CreateFailure)
    (listResp : FetchOutcome) (hmsg : failureMessageNonempty f) :
    (handleSubmit s (some f) listResp).error ≠ "" ∧
    (handleSubmit s (some f) listResp).topic = s.topic ∧
    (handleSubmit s (some f) listResp).recentPodcasts = s.recentPodcasts ∧
    (handleSubmit s (some f) listResp).isLoading = false ∧
    (handleSubmit s none listResp).topic = "" ∧
    (fetchPodcasts s .notOk).error = "Failed to load podcasts" ∧
    (fetchPodcasts s .threw).error = "Failed to load podcasts" ∧
    "Failed to load podcasts" ≠ "" ∧
    (handleDelete s true listResp).error = "Failed to delete podcast" ∧
    "Failed to delete podcast" ≠ "" := by
  refine ⟨?_, rfl, rfl, rfl, rfl, rfl, rfl, by decide, rfl, by decide⟩
  show createErrorMessage f ≠ ""
  match f with
  | .notOk status statusText =>
      exact append_ne_empty_left _ _
        (append_ne_empty_left _ _ (append_ne_empty_left _ _ (by decide)))
  | .threwError msg => exact hmsg
  | .threwNonError => decide

/-- Witness for C6: a concrete not-ok create response (`500 Server Error`)
against the initial state. -/
theorem failures_surface_error_strings_witness :
    failureMessageNonempty (.notOk 500 "Server Error") ∧
    (handleSubmit initialAppState (some (.notOk 500 "Server Error")) .notOk).error ≠ "" :=
  ⟨trivial,
    (failures_surface_error_strings initialAppState (.notOk 500 "Server Error") .notOk
        trivial).1⟩

/-- An HTTP request as the UI issues it with `fetch`: method, path, explicit
headers, and optional body. -/
structure HttpRequest where
  method : String
  path : String
  headers : List (String × String)
  body : Option String
deriving DecidableEq

/-- A lower-case hexadecimal digit, as `JSON.stringify` emits in `\uXXXX`
escapes. -/
def hexDigit (n : ℕ) : Char :=
  if n < 10 then Char.ofNat (48 + n) else Char.ofNat (87 + n)

/-- The JSON escape of one character, following `JSON.stringify`: quote and
backslash are escaped, the control characters `\b \t \n \f \r` get their
short escapes, other control characters get `\u00XX`, and everything else is
emitted verbatim. -/
def jsonEscapeChar (c : Char) : String :=
  if c = '"' then "\\\""
  else if c = '\\' then "\\\\"
  else if c = '\x08' then "\\b"
  else if c = '\x09' then "\\t"
  else if c = '\x0a' then "\\n"
  else if c = '\x0c' then "\\f"
  else if c = '\x0d' then "\\r"
  else if c.toNat < 32 then
    "\\u00" ++ String.singleton (hexDigit (c.toNat / 16)) ++ String.singleton (hexDigit (c.toNat % 16))
  else String.singleton c

/-- `JSON.stringify({ topic })`: the serialized object with single key
`"topic"` and the topic string as its escaped value. -/
def jsonStringifyTopic (topic : String) : String :=
  "\x7b\"topic\":\"" ++ String.join (topic.toList.map jsonEscapeChar) ++ "\"\x7d"

/-- The GET issued by `fetchPodcasts`: `fetch('/api/podcasts/')`. -/
def listRequest : HttpRequest :=
  { method := "GET", path := "/api/podcasts/", headers := [], body := none }

/-- The POST issued by `handleSubmit`: `fetch('/api/podcasts/', { method:
'POST', headers: { 'Content-Type': 'application/json' }, body:
JSON.stringify({ topic }) })`. -/
def createRequest (topic : String) : HttpRequest :=
  { method := "POST", path := "/api/podcasts/",
    headers := [("Content-Type", "application/json")],
    body := some (jsonStringifyTopic topic) }

/-- The DELETE issued by `handleDelete`:
``fetch(`/api/podcasts/${id}/`, { method: 'DELETE' })``. -/
def deleteRequest (id : ℤ) : HttpRequest :=
  { method := "DELETE", path := "/api/podcasts/" ++ toString id ++ "/",
    headers := [], body := none }

/-- The requests `handleSubmit` issues, in order: the create POST, then —
only when it succeeds — the list GET of the `fetchPodcasts()` refresh. -/
def handleSubmitTrace (topic : String) (createSucceeds : Bool) : List HttpRequest :=
  createRequest topic :: (if createSucceeds then [listRequest] else [])

/-- The requests `handleDelete` issues, in order: the DELETE, then — only
when it succeeds — the list GET of the `fetchPodcasts()` refresh. -/
def handleDeleteTrace (id : ℤ) (deleteSucceeds : Bool) : List HttpRequest :=
  deleteRequest id :: (if deleteSucceeds then [listRequest] else [])

/-- The requests `fetchPodcasts` issues: the single list GET. -/
def fetchPodcastsTrace : List HttpRequest := [listRequest]

/-- A request of one of the three CRUD shapes the spec allows: a create POST
for some topic, the list GET, or a delete for some id. -/
def isCrudRequest (r : HttpRequest) : Prop :=
  (∃ t, r = createRequest t) ∨ r = listRequest ∨ ∃ i, r = deleteRequest i

/-- Claim C5: the UI's backend interactions are exactly the three CRUD
calls, each plain JSON over HTTP.  The create POST goes to `/api/podcasts/`
with the `Content-Type: application/json` header and the JSON serialization
of `{ topic }` as body; the list GET goes to `/api/podcasts/`; the delete
DELETE goes to `/api/podcasts/{id}/`.  Every request any handler issues has
one of these three shapes, and each handler issues its own call exactly
once. -/
theorem crud_requests (topic : String) (id : ℤ) (ok ok' : Bool) :
    createRequest topic =
      { method := "POST", path := "/api/podcasts/",
        headers := [("Content-Type", "application/json")],
        body := some (jsonStringifyTopic topic) } ∧
    listRequest = { method := "GET", path := "/api/podcasts/", headers := [], body := none } ∧
    deleteRequest id =
      { method := "DELETE", path := "/api/podcasts/" ++ toString id ++ "/",
        headers := [], body := none } ∧
    (∀ r ∈ handleSubmitTrace topic ok, isCrudRequest r) ∧
    (∀ r ∈ handleDeleteTrace id ok', isCrudRequest r) ∧
    (∀ r ∈ fetchPodcastsTrace, isCrudRequest r) ∧
    (handleSubmitTrace topic ok).countP (fun r => r.method == "POST") = 1 ∧
    (handleDeleteTrace id ok').countP (fun r => r.method == "DELETE") = 1 ∧
    fetchPodcastsTrace.countP (fun r => r.method == "GET") = 1 := by
  refine ⟨rfl, rfl, rfl, ?_, ?_, ?_, ?_, ?_, ?_⟩
  · intro r hr
    rcases List.mem_cons.mp hr with h | h
    · exact Or.inl ⟨topic, h⟩
    · cases ok with
      | true => exact Or.inr (Or.inl (by simpa using h))
      | false => simp at h
  · intro r hr
    rcases List.mem_cons.mp hr with h | h
    · exact Or.inr (Or.inr ⟨id, h⟩)
    · cases ok' with
      | true => exact Or.inr (Or.inl (by simpa using h))
      | false => simp at h
  · intro r hr
    exact Or.inr (Or.inl (by simpa [fetchPodcastsTrace] using hr))
  · cases ok with
    | true => simp [handleSubmitTrace, createRequest, listRequest]
    | false => simp [handleSubmitTrace, createRequest]
  · cases ok' with
    | true => simp [handleDeleteTrace, deleteRequest, listRequest]
    | false => simp [handleDeleteTrace, deleteRequest]
  · simp [fetchPodcastsTrace, listRequest]

/-- Witness for C5: a successful create for the topic `"ai"`; the refresh
GET it issues is itself one of the three CRUD shapes. -/
theorem crud_requests_witness :
    listRequest ∈ handleSubmitTrace "ai" true ∧ isCrudRequest listRequest :=
  ⟨by simp [handleSubmitTrace],
    (crud_requests "ai" 7 true true).2.2.2.1 listRequest (by simp [handleSubmitTrace])⟩

/-! ## Claim C7: the reverse-proxy path rewrite
(src/pages/api/podcasts/[[...slug]].ts and src/next.config.mjs) -/

/-- The backend origin for `/api/podcasts*` requests: the host of both
`next.config.mjs` rewrite destinations and the `target` of the catch-all
API route's proxy — `http://127.0.0.1:8000` in both files. -/
def proxyTarget : String := "http://127.0.0.1:8000"

/-- Anchored literal match: `chopPre pat cs` returns the remainder of `cs`
after the pattern `pat`, or `none` when `cs` does not start with `pat`. -/
def chopPre : List Char → List Char → Option (List Char)
  | [], cs => some cs
  | _ :: _, [] => none
  | p :: ps, c :: cs => if c = p then chopPre ps cs else none

/-- The `pathRewrite` of the catch-all API route's `httpProxyMiddleware`
call (`src/pages/api/podcasts/[[...slug]].ts`):
`url.replace(/^\/api\/podcasts/, '/podcasts/')` — the anchored prefix
`/api/podcasts`, when present, is replaced by the literal `/podcasts/`, and
a non-matching path is forwarded unchanged.  This dynamic (optional
catch-all) route is never reached for `/api/podcasts*` requests: the
`next.config.mjs` rewrites below are `afterFiles` rewrites, which Next.js
checks before dynamic routes, and their external destinations proxy the
request immediately. -/
def proxyPathRewrite (path : String) : String :=
  match chopPre "/api/podcasts".toList path.toList with
  | some rest => "/podcasts/" ++ rest.asString
  | none => path

/-- The `rewrites()` of `next.config.mjs`, as the map from request path to
backend path (every destination is on the origin `proxyTarget`):
`/api/podcasts` maps to `/podcasts/` and `/api/podcasts/:path*` maps to
`/podcasts/:path*`.  Returned as a plain array these are `afterFiles`
rewrites, checked after exact filesystem matches but before dynamic routes,
so they capture every `/api/podcasts*` request ahead of the dynamic
catch-all API route above: this is the effective forwarding. -/
def nextConfigRewrite (path : String) : Option String :=
  if path = "/api/podcasts" then some "/podcasts/"
  else
    match chopPre "/api/podcasts/".toList path.toList with
    | some rest => some ("/podcasts/" ++ rest.asString)
    | none => none

/-- Chopping a pattern off itself followed by anything leaves that
remainder. -/
lemma chopPre_append (p : List Char) : ∀ cs, chopPre p (p ++ cs) = some cs := by
  induction p with
  | nil => intro cs; rfl
  | cons c ps ih => intro cs; simp [chopPre, ih]

/-- Rebuilding a string from its character list is the identity. -/
lemma asString_data (s : String) : s.data.asString = s := rfl

/-- Counterexample to claim C7 as stated: the effective forwarding (the
`next.config.mjs` rewrites) maps the client's delete path
`/api/podcasts` + `/7/` to the backend path `/podcasts/7/`, which is not
the claim's `'/podcasts/' + s` = `/podcasts//7/`: the universal suffix
formula fails at `s = "/7/"`. -/
theorem nextConfigRewrite_counterexample :
    nextConfigRewrite ("/api/podcasts" ++ "/7/") = some "/podcasts/7/" ∧
    nextConfigRewrite ("/api/podcasts" ++ "/7/") ≠ some ("/podcasts/" ++ "/7/") := by
  constructor
  · decide
  · decide

/-- Claim C7 (amended): every `/api/podcasts*` request is forwarded by the
`next.config.mjs` rewrites — `afterFiles` rewrites, checked before the
dynamic catch-all API route, which therefore never runs — to the backend at
`http://127.0.0.1:8000`: `/api/podcasts` maps to `/podcasts/` and
`/api/podcasts/` + `rest` maps to `/podcasts/` + `rest`; in particular the
client's delete path `/api/podcasts/{id}/` reaches the backend's
`/podcasts/{id}/` resource. -/
theorem rewrite_forwarding_spec (rest : String) (id : ℤ) :
    nextConfigRewrite "/api/podcasts" = some "/podcasts/" ∧
    nextConfigRewrite ("/api/podcasts/" ++ rest) = some ("/podcasts/" ++ rest) ∧
    nextConfigRewrite (deleteRequest id).path = some ("/podcasts/" ++ toString id ++ "/") ∧
    proxyTarget = "http://127.0.0.1:8000" := by
  have key : ∀ r : String,
      nextConfigRewrite ("/api/podcasts/" ++ r) = some ("/podcasts/" ++ r) := by
    intro r
    have hne : "/api/podcasts/" ++ r ≠ "/api/podcasts" := by
      intro h
      have hlen := congrArg String.length h
      rw [String.length_append] at hlen
      have h14 : String.length "/api/podcasts/" = 14 := by decide
      have h13 : String.length "/api/podcasts" = 13 := by decide
      omega
    rw [nextConfigRewrite, if_neg hne]
    have hdata : ("/api/podcasts/" ++ r).toList = "/api/podcasts/".toList ++ r.toList := by
      simp [String.toList, String.data_append]
    rw [hdata, chopPre_append]
    simp [String.toList, asString_data]
  refine ⟨by decide, key rest, ?_, rfl⟩
  have hpath : (deleteRequest id).path = "/api/podcasts/" ++ (toString id ++ "/") := by
    rw [deleteRequest]
    exact String.append_assoc _ _ _
  rw [hpath, key, String.append_assoc]

/-! ## Claim C10: formatTime (src/components/podcast-app.tsx, lines 137-141) -/

/-- Truncation towards zero, as JavaScript's remainder operator uses. -/
def ratTrunc (q : ℚ) : ℤ :=
  if 0 ≤ q then ⌊q⌋ else ⌈q⌉

/-- The JavaScript remainder `a % b` on finite numbers with `b ≠ 0`:
`a - b * trunc(a / b)` (exact over the rationals). -/
def jsMod (a b : ℚ) : ℚ :=
  a - b * (ratTrunc (a / b) : ℚ)

/-- `String.prototype.padStart(targetLength, c)`: pad on the left with `c`
up to `targetLength` characters. -/
def padStartStr (s : String) (targetLength : ℕ) (c : Char) : String :=
  if targetLength ≤ s.length then s
  else (List.replicate (targetLength - s.length) c).asString ++ s

/-- `formatTime` of `AudioPlayer`:
`minutes = Math.floor(time / 60)`, `seconds = Math.floor(time % 60)`,
returning `` `${minutes}:${seconds.toString().padStart(2, '0')}` ``. -/
def formatTime (time : ℚ) : String :=
  let minutes := ⌊time / 60⌋
  let seconds := ⌊jsMod time 60⌋
  toString minutes ++ ":" ++ padStartStr (toString seconds) 2 '0'

/-- A string made from a character list has that list's length. -/
lemma length_asString (l : List Char) : l.asString.length = l.length := rfl

/-- `padStart` reaches the requested length. -/
lemma padStartStr_length (s : String) (n : ℕ) (c : Char) :
    n ≤ (padStartStr s n c).length := by
  rw [padStartStr]
  split
  · omega
  · rw [String.length_append, length_asString, List.length_replicate]
    omega

/-- For a non-negative dividend the JavaScript remainder by 60 is the
mathematical remainder. -/
lemma jsMod_sixty (t : ℚ) (ht : 0 ≤ t) :
    jsMod t 60 = t - 60 * (⌊t / 60⌋ : ℚ) := by
  rw [jsMod, ratTrunc, if_pos (by positivity)]

/-- Claim C10: for every non-negative finite `t` (seconds), `formatTime t`
is `` `${m}:${ss}` `` with `m = ⌊t / 60⌋` and `ss` the zero-padded
`⌊t % 60⌋`; moreover `0 ≤ ⌊t % 60⌋ ≤ 59`, `60 * m + ⌊t % 60⌋ = ⌊t⌋`, the
remainder `t % 60` is the mathematical `t - 60 * ⌊t / 60⌋`, and the padded
seconds field has at least two digits. -/
theorem formatTime_spec (t : ℚ) (ht : 0 ≤ t) :
    formatTime t = toString ⌊t / 60⌋ ++ ":" ++ padStartStr (toString ⌊jsMod t 60⌋) 2 '0' ∧
    jsMod t 60 = t - 60 * (⌊t / 60⌋ : ℚ) ∧
    0 ≤ ⌊jsMod t 60⌋ ∧ ⌊jsMod t 60⌋ ≤ 59 ∧
    60 * ⌊t / 60⌋ + ⌊jsMod t 60⌋ = ⌊t⌋ ∧
    2 ≤ (padStartStr (toString ⌊jsMod t 60⌋) 2 '0').length := by
  have hmod := jsMod_sixty t ht
  have hfl : (⌊t / 60⌋ : ℚ) ≤ t / 60 := Int.floor_le _
  have hfu : t / 60 < (⌊t / 60⌋ : ℚ) + 1 := Int.lt_floor_add_one _
  have hc : t / 60 * 60 = t := div_mul_cancel₀ t (by norm_num)
  have h0 : 0 ≤ jsMod t 60 := by
    rw [hmod]
    nlinarith [hfl, hc]
  have h60 : jsMod t 60 < 60 := by
    rw [hmod]
    nlinarith [hfu, hc]
  have hfloor : ⌊jsMod t 60⌋ = ⌊t⌋ - 60 * ⌊t / 60⌋ := by
    rw [hmod]
    have : t - 60 * (⌊t / 60⌋ : ℚ) = t - ((60 * ⌊t / 60⌋ : ℤ) : ℚ) := by push_cast; ring
    rw [this, Int.floor_sub_int]
  refine ⟨rfl, hmod, Int.floor_nonneg.mpr h0, ?_, by omega, padStartStr_length _ _ _⟩
  have : ⌊jsMod t 60⌋ < 60 := Int.floor_lt.mpr (by exact_mod_cast h60)
  omega

/-- Witness for C10 at `t = 125` seconds (rendered `2:05`). -/
theorem formatTime_spec_witness :
    (0 : ℚ) ≤ 125 ∧ 60 * ⌊(125 : ℚ) / 60⌋ + ⌊jsMod 125 60⌋ = ⌊(125 : ℚ)⌋ :=
  ⟨by norm_num, (formatTime_spec 125 (by norm_num)).2.2.2.2.1⟩

end PodcastApp
